import Mathlib

/-!
Verification of the WHOOP BLE telemetry collector: the heart-rate-measurement
decoder (`parse_hrm`), the battery decoder (`parse_battery`), the telemetry
snapshot merge, the CSV/API logging filter, and the connection manager's
reconnection backoff policy.  All definitions are shallow embeddings of the
Python source in `backend/Local Data Collection Testing/main.py` and
`device-connection-and-logging.py`.  A payload is a `List ℕ` of byte values;
`ByteList` states the `bytearray` guarantee that every element is below 256.
RR intervals and delays are `ℚ` (every float the code computes here is exact
in binary floating point: 16-bit values divided by the power of two 1024, and
delays 1.5^k capped at 60).  A Python `IndexError` raised by an out-of-range
`data[i]` is `Option.none`.
-/

namespace Whoop

/-- The `bytearray` guarantee: every element of the payload is below 256. -/
def ByteList (data : List ℕ) : Prop := ∀ b ∈ data, b < 256

instance : DecidablePred ByteList := fun data =>
  inferInstanceAs (Decidable (∀ b ∈ data, b < 256))

/-- Embeds the RR-interval loop of `parse_hrm`:
`while i + 1 < len(data): rr = data[i] | (data[i+1] << 8); i += 2; rrs.append(rr / 1024.0)`.
Operates on the suffix of the payload starting at the current index. -/
def parseRRs : List ℕ → List ℚ
  | a :: b :: rest => (((a ||| (b <<< 8) : ℕ) : ℚ) / 1024) :: parseRRs rest
  | _ => []

/-- Embeds `parse_hrm(data)` from `main.py` (identical copy in
`device-connection-and-logging.py`).  Reads the flags byte, then an 8- or
16-bit little-endian heart rate (flags bit 0), then an optional 16-bit energy
field (flags bit 3), then RR intervals (flags bit 4).  `none` models the
`IndexError` Python raises when a declared field is truncated. -/
def parse_hrm (data : List ℕ) : Option (ℕ × Option ℕ × List ℚ) := do
  let flags ← data.get? 0
  let (hr, i1) ←
    if flags &&& 0x01 ≠ 0 then do
      let a ← data.get? 1
      let b ← data.get? 2
      pure (a ||| (b <<< 8), (3 : ℕ))
    else do
      let a ← data.get? 1
      pure (a, (2 : ℕ))
  let (energy, i2) ←
    if flags &&& 0x08 ≠ 0 then do
      let a ← data.get? i1
      let b ← data.get? (i1 + 1)
      pure (some (a ||| (b <<< 8)), i1 + 2)
    else
      pure ((none : Option ℕ), i1)
  let rrs := if flags &&& 0x10 ≠ 0 then parseRRs (data.drop i2) else []
  pure (hr, energy, rrs)

/-- Embeds `parse_battery(data)`: `data[0] if len(data) >= 1 else 0`. -/
def parse_battery (data : List ℕ) : ℕ :=
  match data with
  | b :: _ => b
  | [] => 0

/-- Minimum payload length demanded by a flags byte: the flags byte itself,
2 heart-rate bytes if bit 0 is set else 1, and 2 energy bytes if bit 3 is
set.  (Bit 4 adds no minimum: the RR loop accepts zero iterations.) -/
def requiredLen (flags : ℕ) : ℕ :=
  1 + (if flags &&& 0x01 ≠ 0 then 2 else 1) + (if flags &&& 0x08 ≠ 0 then 2 else 0)

/-- The telemetry snapshot (`WhoopData` dataclass in `main.py`): latest known
value per channel, each `None` until first written. -/
structure WhoopData where
  hr : Option ℕ := none
  rr_intervals : Option (List ℚ) := none
  battery : Option ℕ := none

/-- Embeds the `HR_MEASUREMENT` branch of `WhoopCollector.create_callback`:
`self.data.hr = hr; self.data.rr_intervals = rrs` — an unconditional
last-write-wins overwrite of the snapshot. -/
def hr_callback (d : WhoopData) (hr : ℕ) (rrs : List ℚ) : WhoopData :=
  { d with hr := some hr, rr_intervals := some rrs }

/-- Embeds the `BATTERY` branch of `WhoopCollector.create_callback`:
`self.data.battery = battery`. -/
def battery_callback (d : WhoopData) (battery : ℕ) : WhoopData :=
  { d with battery := some battery }

/-- Embeds the rows written (to CSV, and mirrored to the API) by one
invocation of `cb` in `device-connection-and-logging.py`: one HR-only row
`(hr, none)` when `hr > 0`, then one row `(hr, some rr)` for every `rr` in
the decoded list with `rr` truthy and `rr > 0`. -/
def cb_rows (hr : ℕ) (rrs : List ℚ) : List (ℕ × Option ℚ) :=
  (if 0 < hr then [(hr, none)] else []) ++
    (rrs.filter (fun rr => ¬rr = 0 ∧ 0 < rr)).map (fun rr => (hr, some rr))

/-! Reconnection configuration constants from `main.py`. -/

def MAX_RECONNECT_ATTEMPTS : ℕ := 10
def INITIAL_RECONNECT_DELAY : ℚ := 1
def MAX_RECONNECT_DELAY : ℚ := 60
def RECONNECT_BACKOFF_MULTIPLIER : ℚ := 3 / 2

/-- The mutable fields of `ConnectionManager` that the reconnect logic
reads and writes. -/
structure CMState where
  is_connected : Bool
  reconnect_attempts : ℕ
  reconnect_delay : ℚ
  should_reconnect : Bool

/-- `ConnectionManager.__init__`: disconnected, zero attempts, initial
delay, resilience enabled. -/
def initCMState : CMState :=
  { is_connected := false, reconnect_attempts := 0,
    reconnect_delay := INITIAL_RECONNECT_DELAY, should_reconnect := true }

/-- Embeds `ConnectionManager.connect`: on success sets `is_connected`,
resets `reconnect_attempts` to 0 and `reconnect_delay` to the initial
value; on failure clears `is_connected`.  `ok` abstracts whether the BLE
handshake succeeded. -/
def connectResult (ok : Bool) (s : CMState) : Bool × CMState :=
  if ok then
    (true, { s with is_connected := true, reconnect_attempts := 0,
                    reconnect_delay := INITIAL_RECONNECT_DELAY })
  else
    (false, { s with is_connected := false })

/-- Embeds the failure bookkeeping in `ConnectionManager.reconnect`:
`reconnect_attempts += 1;
reconnect_delay = min(reconnect_delay * RECONNECT_BACKOFF_MULTIPLIER, MAX_RECONNECT_DELAY)`. -/
def backoffAdvance (s : CMState) : CMState :=
  { s with reconnect_attempts := s.reconnect_attempts + 1,
           reconnect_delay := min (s.reconnect_delay * RECONNECT_BACKOFF_MULTIPLIER)
                                  MAX_RECONNECT_DELAY }

/-- The wait the reconnect loop uses before an attempt after the first:
`delay = min(self.reconnect_delay, MAX_RECONNECT_DELAY)`. -/
def waitDelay (s : CMState) : ℚ := min s.reconnect_delay MAX_RECONNECT_DELAY

/-- The jittered sleep before a reconnection attempt:
`jitter = random.uniform(0.1, 0.5) * delay; sleep(delay + jitter)`. -/
def jitteredWait (delay jitterFrac : ℚ) : ℚ := delay + jitterFrac * delay

/-- Embeds the `while` loop of `ConnectionManager.reconnect`: as long as
`reconnect_attempts < MAX_RECONNECT_ATTEMPTS and should_reconnect`, call
`connect` (its outcome given by `outcomes` at the index of the call); on
success return `True`, on failure advance the backoff policy and loop.
Returns the boolean result, the final state, and the number of `connect`
calls made (the running counter starts at `calls`). -/
def reconnectLoop (outcomes : ℕ → Bool) (s : CMState) (calls : ℕ) : Bool × CMState × ℕ :=
  if h : s.reconnect_attempts < MAX_RECONNECT_ATTEMPTS ∧ s.should_reconnect = true then
    if outcomes calls then
      (true, (connectResult true s).2, calls + 1)
    else
      reconnectLoop outcomes (backoffAdvance (connectResult false s).2) (calls + 1)
  else
    (false, s, calls)
termination_by MAX_RECONNECT_ATTEMPTS - s.reconnect_attempts
decreasing_by
  simp [backoffAdvance, connectResult]
  omega

/-- Embeds `ConnectionManager.reconnect` including its entry guard
`if not self.should_reconnect: return False`. -/
def reconnect (outcomes : ℕ → Bool) (s : CMState) : Bool × CMState × ℕ :=
  if s.should_reconnect = false then (false, s, 0)
  else reconnectLoop outcomes s 0

/-! Derived views of a successful parse, used to state inversion facts about
`parse_hrm`.  They read the same bytes the decoder reads. -/

/-- Number of heart-rate bytes a flags byte declares. -/
def hrWidth (flags : ℕ) : ℕ := if flags &&& 0x01 ≠ 0 then 2 else 1

/-- The heart-rate value a successful parse returns. -/
def hrOf (data : List ℕ) (flags : ℕ) : ℕ :=
  if flags &&& 0x01 ≠ 0 then data.getD 1 0 ||| (data.getD 2 0 <<< 8) else data.getD 1 0

/-- The energy value a successful parse returns. -/
def energyOf (data : List ℕ) (flags : ℕ) : Option ℕ :=
  if flags &&& 0x08 ≠ 0 then
    some (data.getD (1 + hrWidth flags) 0 ||| (data.getD (1 + hrWidth flags + 1) 0 <<< 8))
  else none

/-- The RR-interval list a successful parse returns. -/
def rrsOf (data : List ℕ) (flags : ℕ) : List ℚ :=
  if flags &&& 0x10 ≠ 0 then parseRRs (data.drop (requiredLen flags)) else []

/-- Raw 16-bit RR units read by the RR loop, before division by 1024. -/
def rawRRs : List ℕ → List ℕ
  | a :: b :: rest => (a ||| (b <<< 8)) :: rawRRs rest
  | _ => []

/-- Modelled from the spec: the source has no encoder, and §8 speaks of
"re-encoding the same logical fields"; this is the byte layout of §4.1 —
flags byte, 8- or 16-bit little-endian heart rate per flags bit 0, 16-bit
little-endian energy when present, and one 16-bit little-endian word per raw
RR unit. -/
def encode_hrm (flags hr : ℕ) (energy : Option ℕ) (rrRaw : List ℕ) : List ℕ :=
  flags ::
    ((if flags &&& 0x01 ≠ 0 then [hr % 256, hr / 256] else [hr]) ++
     (match energy with
      | some e => [e % 256, e / 256]
      | none => []) ++
     rrRaw.flatMap (fun r => [r % 256, r / 256]))

/-! ### Helper lemmas -/

theorem lor_shift8 (a b : ℕ) (ha : a < 256) : a ||| (b <<< 8) = a + 256 * b := by
  have hpow : (2 : ℕ) ^ 8 = 256 := by norm_num
  have ha' : a < 2 ^ 8 := by omega
  have h : 2 ^ 8 * b + a = 2 ^ 8 * b ||| a := Nat.mul_add_lt_is_or ha' b
  rw [Nat.shiftLeft_eq, Nat.or_comm, Nat.mul_comm b (2 ^ 8), ← h]
  omega

theorem lor_shift8_mod (a b : ℕ) (ha : a < 256) : (a ||| (b <<< 8)) % 256 = a := by
  rw [lor_shift8 a b ha]; omega

theorem lor_shift8_div (a b : ℕ) (ha : a < 256) : (a ||| (b <<< 8)) / 256 = b := by
  rw [lor_shift8 a b ha]; omega

theorem lor_shift8_lt (a b : ℕ) (ha : a < 256) (hb : b < 256) :
    a ||| (b <<< 8) < 65536 := by
  rw [lor_shift8 a b ha]; omega

theorem parseRRs_length : ∀ l : List ℕ, (parseRRs l).length = l.length / 2
  | [] => rfl
  | [_] => by simp [parseRRs]
  | _ :: _ :: rest => by
    simp [parseRRs, parseRRs_length rest]
    omega

theorem parseRRs_get? : ∀ (l : List ℕ) (k : ℕ), k < (parseRRs l).length →
    (parseRRs l).get? k =
      some (((l.getD (2 * k) 0 ||| (l.getD (2 * k + 1) 0 <<< 8) : ℕ) : ℚ) / 1024)
  | _ :: _ :: _, 0, _ => by simp [parseRRs]
  | a :: b :: rest, k + 1, hk => by
    have hk' : k < (parseRRs rest).length := by
      simp [parseRRs] at hk; omega
    have ih := parseRRs_get? rest k hk'
    have h1 : 2 * (k + 1) = 2 * k + 1 + 1 := by ring
    simp only [parseRRs, h1, List.get?_cons_succ, List.getD_cons_succ]
    simpa using ih
  | [], _, hk => by simp [parseRRs] at hk
  | [_], _, hk => by simp [parseRRs] at hk

theorem parseRRs_mem : ∀ l : List ℕ, (∀ b ∈ l, b < 256) →
    ∀ rr ∈ parseRRs l, 0 ≤ rr ∧ rr ≤ 65535 / 1024
  | a :: b :: rest, hl, rr, hrr => by
    simp only [parseRRs, List.mem_cons] at hrr
    rcases hrr with h | h
    · subst h
      refine ⟨by positivity, ?_⟩
      have hub : a ||| (b <<< 8) < 65536 :=
        lor_shift8_lt a b (hl a (by simp)) (hl b (by simp))
      have hc : ((a ||| (b <<< 8) : ℕ) : ℚ) ≤ 65535 := by exact_mod_cast Nat.le_of_lt_succ hub
      have h1024 : (0 : ℚ) < 1024 := by norm_num
      exact (div_le_div_iff_of_pos_right h1024).mpr hc
    · exact parseRRs_mem rest (fun x hx => hl x (by simp [hx])) rr h
  | [], _, rr, hrr => by simp [parseRRs] at hrr
  | [_], _, rr, hrr => by simp [parseRRs] at hrr

theorem parseRRs_eq_rawRRs : ∀ l : List ℕ,
    parseRRs l = (rawRRs l).map (fun r => ((r : ℚ) / 1024))
  | [] => rfl
  | [_] => rfl
  | _ :: _ :: rest => by simp [parseRRs, rawRRs, parseRRs_eq_rawRRs rest]

theorem rawRRs_flatMap : ∀ l : List ℕ, (∀ b ∈ l, b < 256) → l.length % 2 = 0 →
    (rawRRs l).flatMap (fun r => [r % 256, r / 256]) = l
  | [], _, _ => rfl
  | [_], _, hpar => by simp at hpar
  | a :: b :: rest, hl, hpar => by
    have ha : a < 256 := hl a (by simp)
    have hb : b < 256 := hl b (by simp)
    have ih := rawRRs_flatMap rest (fun x hx => hl x (by simp [hx]))
      (by simp at hpar; omega)
    simp [rawRRs, lor_shift8_mod a b ha, lor_shift8_div a b ha, ih]

theorem parse_hrm_some_inv (data : List ℕ) (out : ℕ × Option ℕ × List ℚ)
    (hp : parse_hrm data = some out) :
    ∃ flags, data.get? 0 = some flags ∧ requiredLen flags ≤ data.length ∧
      out = (hrOf data flags, energyOf data flags, rrsOf data flags) := by
  match data with
  | [] => simp [parse_hrm] at hp
  | flags :: rest =>
    refine ⟨flags, rfl, ?_⟩
    have hmod := Nat.and_one_is_mod flags
    by_cases h1 : flags &&& 0x01 ≠ 0 <;> by_cases h8 : flags &&& 0x08 ≠ 0
    · have h1m : flags % 2 = 1 := by omega
      rcases rest with _ | ⟨a, _ | ⟨b, _ | ⟨c, _ | ⟨d, tail⟩⟩⟩⟩
      · simp [parse_hrm, h1m, h8, List.get?] at hp
      · simp [parse_hrm, h1m, h8, List.get?] at hp
      · simp [parse_hrm, h1m, h8, List.get?] at hp
      · simp [parse_hrm, h1m, h8, List.get?] at hp
      · refine ⟨by simp [requiredLen, h1m, h8], ?_⟩
        simp [parse_hrm, h1m, h8, List.get?] at hp
        subst hp
        simp [hrOf, energyOf, rrsOf, hrWidth, requiredLen, h1m, h8]
    · have h1m : flags % 2 = 1 := by omega
      have h8z : flags &&& 0x08 = 0 := not_not.mp h8
      rcases rest with _ | ⟨a, _ | ⟨b, tail⟩⟩
      · simp [parse_hrm, h1m, h8z, List.get?] at hp
      · simp [parse_hrm, h1m, h8z, List.get?] at hp
      · refine ⟨by simp [requiredLen, h1m, h8z], ?_⟩
        simp [parse_hrm, h1m, h8z, List.get?] at hp
        subst hp
        simp [hrOf, energyOf, rrsOf, hrWidth, requiredLen, h1m, h8z]
    · have h1m : flags % 2 = 0 := by omega
      rcases rest with _ | ⟨a, _ | ⟨b, _ | ⟨c, tail⟩⟩⟩
      · simp [parse_hrm, h1m, h8, List.get?] at hp
      · simp [parse_hrm, h1m, h8, List.get?] at hp
      · simp [parse_hrm, h1m, h8, List.get?] at hp
      · refine ⟨by simp [requiredLen, h1m, h8], ?_⟩
        simp [parse_hrm, h1m, h8, List.get?] at hp
        subst hp
        simp [hrOf, energyOf, rrsOf, hrWidth, requiredLen, h1m, h8]
    · have h1m : flags % 2 = 0 := by omega
      have h8z : flags &&& 0x08 = 0 := not_not.mp h8
      rcases rest with _ | ⟨a, tail⟩
      · simp [parse_hrm, h1m, h8z, List.get?] at hp
      · refine ⟨by simp [requiredLen, h1m, h8z], ?_⟩
        simp [parse_hrm, h1m, h8z, List.get?] at hp
        subst hp
        simp [hrOf, energyOf, rrsOf, hrWidth, requiredLen, h1m, h8z]

/-! ### Claim theorems -/

/-- C1: a heart-rate notification payload shorter than the minimum length its
own flags byte requires (the empty payload included, and payloads whose
declared 16-bit heart-rate or energy field is truncated) always fails to
decode: `parse_hrm` returns `none` (the Python `IndexError`), never a
partially parsed measurement. -/
theorem decode_truncated_yields_error :
    parse_hrm [] = none ∧
    ∀ (data : List ℕ) (flags : ℕ), data.get? 0 = some flags →
      data.length < requiredLen flags → parse_hrm data = none := by
  refine ⟨by simp [parse_hrm], ?_⟩
  intro data flags h0 hlen
  cases data with
  | nil => simp at h0
  | cons f rest =>
    obtain rfl : f = flags := by simpa using h0
    have hmod := Nat.and_one_is_mod f
    by_cases h1 : f &&& 0x01 ≠ 0 <;> by_cases h8 : f &&& 0x08 ≠ 0
    · have h1m : f % 2 = 1 := by omega
      rcases rest with _ | ⟨a, _ | ⟨b, _ | ⟨c, _ | ⟨d, tail⟩⟩⟩⟩
      · simp [parse_hrm, h1m, h8, List.get?]
      · simp [parse_hrm, h1m, h8, List.get?]
      · simp [parse_hrm, h1m, h8, List.get?]
      · simp [parse_hrm, h1m, h8, List.get?]
      · exfalso; simp [requiredLen, h1m, h8] at hlen; omega
    · have h1m : f % 2 = 1 := by omega
      have h8z : f &&& 0x08 = 0 := not_not.mp h8
      rcases rest with _ | ⟨a, _ | ⟨b, tail⟩⟩
      · simp [parse_hrm, h1m, h8z, List.get?]
      · simp [parse_hrm, h1m, h8z, List.get?]
      · exfalso; simp [requiredLen, h1m, h8z] at hlen; omega
    · have h1m : f % 2 = 0 := by omega
      rcases rest with _ | ⟨a, _ | ⟨b, _ | ⟨c, tail⟩⟩⟩
      · simp [parse_hrm, h1m, h8, List.get?]
      · simp [parse_hrm, h1m, h8, List.get?]
      · simp [parse_hrm, h1m, h8, List.get?]
      · exfalso; simp [requiredLen, h1m, h8] at hlen; omega
    · have h1m : f % 2 = 0 := by omega
      have h8z : f &&& 0x08 = 0 := not_not.mp h8
      rcases rest with _ | ⟨a, tail⟩
      · simp [parse_hrm, h1m, h8z, List.get?]
      · exfalso; simp [requiredLen, h1m, h8z] at hlen; omega

/-- C1 witness: the truncated payload `[0x01, 0x4B]` (flags declare a 16-bit
heart rate but only one byte follows) decodes to `none`. -/
theorem decode_truncated_yields_error_witness :
    parse_hrm [0x01, 0x4B] = none :=
  decode_truncated_yields_error.2 [0x01, 0x4B] 0x01 rfl (by decide)

/-- C2 counterexample: the notification payload
`[0x10, 0x4B, 0x00, 0xE8, 0x03]` of the claim does NOT decode to an
RR-interval list `[1000/1024]`: its flags byte 0x10 declares an 8-bit heart
rate, so the RR loop starts at the 0x00 byte and reads the chunk
`0x00, 0xE8` = 0xE800 instead. -/
theorem scenarioA_counterexample :
    parse_hrm [0x10, 0x4B, 0x00, 0xE8, 0x03] ≠
      some (75, none, [(1000 : ℚ) / 1024]) := by
  have e1 : parse_hrm [0x10, 0x4B, 0x00, 0xE8, 0x03] = some (75, none, [(58 : ℚ)]) := by
    norm_num [parse_hrm, parseRRs, List.get?,
      show (16 &&& 8 : ℕ) = 0 from rfl, show (16 &&& 16 : ℕ) = 16 from rfl,
      show (232 <<< 8 : ℕ) = 59392 from rfl]
  rw [e1]
  intro h
  simp only [Option.some.injEq, Prod.mk.injEq, List.cons.injEq, true_and, and_true] at h
  norm_num at h

/-- C2 amended: the payload `[0x10, 0x4B, 0x00, 0xE8, 0x03]` decodes under
its 8-bit heart-rate flags to HR = 75, no energy, RR = [0xE800/1024 = 58.0]
with the trailing 0x03 byte discarded; the payload that decodes to HR = 75,
RR = [1000/1024], no energy, is the 4-byte `[0x10, 0x4B, 0xE8, 0x03]`. -/
theorem scenarioA_amended :
    parse_hrm [0x10, 0x4B, 0x00, 0xE8, 0x03] = some (75, none, [(58 : ℚ)]) ∧
    parse_hrm [0x10, 0x4B, 0xE8, 0x03] = some (75, none, [(1000 : ℚ) / 1024]) := by
  constructor
  · norm_num [parse_hrm, parseRRs, List.get?,
      show (16 &&& 8 : ℕ) = 0 from rfl, show (16 &&& 16 : ℕ) = 16 from rfl,
      show (232 <<< 8 : ℕ) = 59392 from rfl]
  · norm_num [parse_hrm, parseRRs, List.get?,
      show (16 &&& 8 : ℕ) = 0 from rfl, show (16 &&& 16 : ℕ) = 16 from rfl,
      show (232 ||| 3 <<< 8 : ℕ) = 1000 from rfl]

/-- C3 counterexample: the decodable measurement `[0x10, 0x00, 0x00, 0x00]`
(HR = 0, RR = [0.0]) merged by the `main.py` collector callback DOES change
the visible snapshot entries: the callback stores HR and RR unconditionally,
with no filtering of zero or non-positive values. -/
theorem merge_zero_counterexample :
    parse_hrm [0x10, 0x00, 0x00, 0x00] = some (0, none, [(0 : ℚ)]) ∧
    (hr_callback ⟨some 75, some [(1 : ℚ)], none⟩ 0 [(0 : ℚ)]).hr ≠ some 75 ∧
    (hr_callback ⟨some 75, some [(1 : ℚ)], none⟩ 0 [(0 : ℚ)]).rr_intervals ≠
      some [(1 : ℚ)] := by
  refine ⟨?_, by simp [hr_callback], ?_⟩
  · norm_num [parse_hrm, parseRRs, List.get?,
      show (16 &&& 8 : ℕ) = 0 from rfl, show (16 &&& 16 : ℕ) = 16 from rfl,
      show (0 <<< 8 : ℕ) = 0 from rfl]
  · simp only [hr_callback, Option.some.injEq, ne_eq, List.cons.injEq, and_true]
    norm_num

/-- C3 amended: the snapshot merge in `main.py` stores every decoded
measurement unconditionally (HR = 0 and RR = 0.0 included); the HR > 0 and
RR > 0 filtering policy lives in the logging callback of
`device-connection-and-logging.py`, which emits no HR-only row with HR ≤ 0
and no RR row with RR ≤ 0. -/
theorem merge_unfiltered_logging_filtered :
    (∀ (d : WhoopData) (hr : ℕ) (rrs : List ℚ),
        (hr_callback d hr rrs).hr = some hr ∧
        (hr_callback d hr rrs).rr_intervals = some rrs) ∧
    (∀ (hr : ℕ) (rrs : List ℚ), ∀ p ∈ cb_rows hr rrs,
        (p.2 = none → 0 < p.1) ∧ (∀ rr, p.2 = some rr → 0 < rr)) := by
  refine ⟨fun d hr rrs => ⟨rfl, rfl⟩, ?_⟩
  intro hr rrs p hp
  simp only [cb_rows, List.mem_append, List.mem_map, List.mem_filter] at hp
  rcases hp with hp | ⟨rr, hrr, rfl⟩
  · rcases Decidable.em (0 < hr) with hpos | hneg
    · simp [hpos] at hp
      subst hp
      exact ⟨fun _ => hpos, fun rr h => by simp at h⟩
    · simp [hneg] at hp
  · refine ⟨fun h => by simp at h, fun rr2 h => ?_⟩
    have : rr2 = rr := by simpa using h.symm
    subst this
    have := of_decide_eq_true (by exact hrr.2)
    exact this.2

/-- C3 witness: merging HR 75 overwrites the empty snapshot, and the HR-only
logging row for HR 75 satisfies the positivity filter. -/
theorem merge_unfiltered_logging_filtered_witness :
    (hr_callback ⟨none, none, none⟩ 75 []).hr = some 75 ∧ (0 : ℕ) < 75 := by
  refine ⟨(merge_unfiltered_logging_filtered.1 ⟨none, none, none⟩ 75 []).1, ?_⟩
  exact (merge_unfiltered_logging_filtered.2 75 [] (75, none) (by simp [cb_rows])).1 rfl

/-- C5 counterexample: the battery decoder does not always return a value in
the range 0..100 — on the payload `[200]` it returns the raw first byte
200. -/
theorem battery_range_counterexample :
    parse_battery [200] = 200 ∧ ¬ parse_battery [200] ≤ 100 :=
  ⟨rfl, by decide⟩

/-- C5 amended: the battery decoder returns the first byte of a non-empty
payload (hence any value 0..255 for byte payloads — 0..100 only when the
first byte is at most 100, as on a compliant device) and 0 for an empty
payload (unknown, not an error). -/
theorem parse_battery_amended :
    parse_battery [] = 0 ∧
    (∀ (b : ℕ) (l : List ℕ), parse_battery (b :: l) = b) ∧
    (∀ data : List ℕ, ByteList data → parse_battery data < 256) ∧
    (∀ (b : ℕ) (l : List ℕ), b ≤ 100 → parse_battery (b :: l) ≤ 100) := by
  refine ⟨rfl, fun b l => rfl, ?_, fun b l h => h⟩
  intro data hb
  cases data with
  | nil => simp [parse_battery]
  | cons b l => exact hb b (by simp)

/-- C5 witness: the payload `[85, 3]` decodes to battery 85, which is below
256 and within 0..100. -/
theorem parse_battery_amended_witness :
    parse_battery [85, 3] = 85 ∧ parse_battery [85, 3] < 256 ∧
    parse_battery [85, 3] ≤ 100 :=
  ⟨parse_battery_amended.2.1 85 [3],
   parse_battery_amended.2.2.1 [85, 3] (by decide),
   parse_battery_amended.2.2.2 85 [3] (by norm_num)⟩

/-- Index arithmetic for reading inside a dropped suffix. -/
theorem getD_drop (l : List ℕ) (n m : ℕ) :
    (l.drop n).getD m 0 = l.getD (n + m) 0 := by
  simp [List.getD_eq_getElem?_getD, List.getElem?_drop]

/-- C4: when flags bit 4 is set and the payload decodes, the RR list is
exactly the 2-byte little-endian chunks of the bytes after the heart-rate
and optional energy fields, each divided by 1024; consumption stops when
fewer than 2 bytes remain, so the list has exactly
floor(remaining / 2) elements (a dangling trailing byte is discarded) and
element k is bytes `i0 + 2k` and `i0 + 2k + 1` combined and divided by
1024. -/
theorem rr_chunk_structure (data : List ℕ) (flags hr : ℕ) (energy : Option ℕ)
    (rrs : List ℚ) (h0 : data.get? 0 = some flags) (h4 : flags &&& 0x10 ≠ 0)
    (hp : parse_hrm data = some (hr, energy, rrs)) :
    rrs = parseRRs (data.drop (requiredLen flags)) ∧
    rrs.length = (data.length - requiredLen flags) / 2 ∧
    ∀ k, k < rrs.length →
      rrs.get? k = some
        (((data.getD (requiredLen flags + 2 * k) 0 |||
           (data.getD (requiredLen flags + 2 * k + 1) 0 <<< 8) : ℕ) : ℚ) / 1024) := by
  obtain ⟨flags2, h02, hlen, heq⟩ := parse_hrm_some_inv data _ hp
  obtain rfl : flags = flags2 := Option.some.inj (h0.symm.trans h02)
  have hrr : rrs = rrsOf data flags := congrArg (fun t => t.2.2) heq
  have hmain : rrs = parseRRs (data.drop (requiredLen flags)) := by
    rw [hrr]; simp [rrsOf, h4]
  refine ⟨hmain, ?_, ?_⟩
  · rw [hmain, parseRRs_length, List.length_drop]
  · intro k hk
    rw [hmain] at hk ⊢
    rw [parseRRs_get? _ k hk, getD_drop, getD_drop]
    have harith : requiredLen flags + (2 * k + 1) = requiredLen flags + 2 * k + 1 := by ring
    rw [harith]

/-- C4 witness: the payload `[0x10, 0x4B, 0xE8, 0x03, 0x07]` has one RR
chunk (the trailing 0x07 is discarded): the decoded RR list is the parsed
chunk list of the drop and has length (5 - 2) / 2 = 1. -/
theorem rr_chunk_structure_witness :
    [(1000 : ℚ) / 1024] = parseRRs ([0x10, 0x4B, 0xE8, 0x03, 0x07].drop (requiredLen 0x10)) ∧
    ([(1000 : ℚ) / 1024] : List ℚ).length =
      (([0x10, 0x4B, 0xE8, 0x03, 0x07] : List ℕ).length - requiredLen 0x10) / 2 := by
  have hp : parse_hrm [0x10, 0x4B, 0xE8, 0x03, 0x07] =
      some (75, none, [(1000 : ℚ) / 1024]) := by
    norm_num [parse_hrm, parseRRs, List.get?,
      show (16 &&& 8 : ℕ) = 0 from rfl, show (16 &&& 16 : ℕ) = 16 from rfl,
      show (232 ||| 3 <<< 8 : ℕ) = 1000 from rfl]
  have h := rr_chunk_structure [0x10, 0x4B, 0xE8, 0x03, 0x07] 0x10 75 none
    [(1000 : ℚ) / 1024] rfl (by decide) hp
  exact ⟨h.1, h.2.1⟩

/-- C10: every RR interval a successful decode produces lies in
[0, 65535/1024] seconds: it is a 16-bit unsigned raw value divided by 1024,
so it is never strictly negative and the negative branch of the downstream
RR filter can never fire on decoder output. -/
theorem rr_values_nonneg_bounded (data : List ℕ) (hb : ByteList data)
    (hr : ℕ) (energy : Option ℕ) (rrs : List ℚ)
    (hp : parse_hrm data = some (hr, energy, rrs)) :
    ∀ rr ∈ rrs, 0 ≤ rr ∧ rr ≤ 65535 / 1024 := by
  obtain ⟨flags, h0, hlen, heq⟩ := parse_hrm_some_inv data _ hp
  have hrr : rrs = rrsOf data flags := congrArg (fun t => t.2.2) heq
  rw [hrr]
  by_cases h4 : flags &&& 0x10 ≠ 0
  · simp only [rrsOf, if_pos h4]
    exact parseRRs_mem _ (fun x hx => hb x (List.drop_subset _ _ hx))
  · simp [rrsOf, h4]

/-- C10 witness: the single RR interval decoded from
`[0x10, 0x4B, 0xE8, 0x03]` is non-negative and at most 65535/1024. -/
theorem rr_values_nonneg_bounded_witness :
    0 ≤ (1000 : ℚ) / 1024 ∧ (1000 : ℚ) / 1024 ≤ 65535 / 1024 := by
  have hp : parse_hrm [0x10, 0x4B, 0xE8, 0x03] =
      some (75, none, [(1000 : ℚ) / 1024]) := by
    norm_num [parse_hrm, parseRRs, List.get?,
      show (16 &&& 8 : ℕ) = 0 from rfl, show (16 &&& 16 : ℕ) = 16 from rfl,
      show (232 ||| 3 <<< 8 : ℕ) = 1000 from rfl]
  exact rr_values_nonneg_bounded [0x10, 0x4B, 0xE8, 0x03] (by decide) 75 none
    [(1000 : ℚ) / 1024] hp ((1000 : ℚ) / 1024) (by simp)

/-- The backoff delay stays strictly positive and capped at the maximum
across consecutive failures. -/
theorem backoff_delay_invariant (n : ℕ) :
    0 < (backoffAdvance^[n] initCMState).reconnect_delay ∧
    (backoffAdvance^[n] initCMState).reconnect_delay ≤ MAX_RECONNECT_DELAY := by
  induction n with
  | zero =>
    simp [initCMState, INITIAL_RECONNECT_DELAY, MAX_RECONNECT_DELAY]
  | succ n ih =>
    rw [Function.iterate_succ_apply']
    simp only [backoffAdvance]
    refine ⟨lt_min ?_ ?_, min_le_right _ _⟩
    · exact mul_pos ih.1 (by norm_num [RECONNECT_BACKOFF_MULTIPLIER])
    · norm_num [MAX_RECONNECT_DELAY]

/-- C6: starting from the initial delay, each failed attempt updates the
backoff delay to min(previous × 1.5, MAX_RECONNECT_DELAY); the resulting
delay sequence is monotonically non-decreasing, every delay is at most the
configured maximum of 60 seconds, and a successful connect resets the delay
to the initial value. -/
theorem backoff_monotone_bounded (n : ℕ) :
    (backoffAdvance^[n + 1] initCMState).reconnect_delay =
      min ((backoffAdvance^[n] initCMState).reconnect_delay * RECONNECT_BACKOFF_MULTIPLIER)
          MAX_RECONNECT_DELAY ∧
    (backoffAdvance^[n] initCMState).reconnect_delay ≤
      (backoffAdvance^[n + 1] initCMState).reconnect_delay ∧
    (backoffAdvance^[n] initCMState).reconnect_delay ≤ 60 ∧
    (connectResult true (backoffAdvance^[n] initCMState)).2.reconnect_delay =
      INITIAL_RECONNECT_DELAY := by
  obtain ⟨hpos, hle⟩ := backoff_delay_invariant n
  refine ⟨?_, ?_, ?_, ?_⟩
  · rw [Function.iterate_succ_apply']
    simp [backoffAdvance]
  · rw [Function.iterate_succ_apply']
    simp only [backoffAdvance]
    refine le_min ?_ hle
    nlinarith [hpos.le, show (1 : ℚ) ≤ RECONNECT_BACKOFF_MULTIPLIER by
      norm_num [RECONNECT_BACKOFF_MULTIPLIER]]
  · simpa [MAX_RECONNECT_DELAY] using hle
  · simp [connectResult]

/-- C7: for every state and every jitter fraction drawn from [0.1, 0.5],
the jittered wait equals delay + fraction × delay for the capped delay the
loop computes, and always lies in [delay, 1.5 × delay]. -/
theorem jittered_wait_bounds (s : CMState) (u : ℚ)
    (hd : 0 ≤ s.reconnect_delay) (hu1 : 1 / 10 ≤ u) (hu2 : u ≤ 1 / 2) :
    jitteredWait (waitDelay s) u = waitDelay s + u * waitDelay s ∧
    waitDelay s ≤ jitteredWait (waitDelay s) u ∧
    jitteredWait (waitDelay s) u ≤ 3 / 2 * waitDelay s := by
  have hw : 0 ≤ waitDelay s := le_min hd (by norm_num [MAX_RECONNECT_DELAY])
  refine ⟨rfl, ?_, ?_⟩
  · have hnn : 0 ≤ u * waitDelay s := mul_nonneg (le_trans (by norm_num) hu1) hw
    simp only [jitteredWait]
    linarith
  · have hub : u * waitDelay s ≤ 1 / 2 * waitDelay s :=
      mul_le_mul_of_nonneg_right hu2 hw
    simp only [jitteredWait]
    linarith

/-- C7 witness: in the initial state (delay 1 second) with jitter fraction
1/4, the jittered wait equals 5/4 and lies in [1, 3/2]. -/
theorem jittered_wait_bounds_witness :
    jitteredWait (waitDelay initCMState) (1 / 4) =
      waitDelay initCMState + 1 / 4 * waitDelay initCMState ∧
    waitDelay initCMState ≤ jitteredWait (waitDelay initCMState) (1 / 4) ∧
    jitteredWait (waitDelay initCMState) (1 / 4) ≤ 3 / 2 * waitDelay initCMState :=
  jittered_wait_bounds initCMState (1 / 4)
    (by norm_num [initCMState, INITIAL_RECONNECT_DELAY]) (by norm_num) (by norm_num)

/-- When every connect attempt fails, the reconnect loop runs until the
attempt counter reaches the maximum, making one connect call per remaining
attempt. -/
theorem reconnectLoop_allFail : ∀ (k : ℕ) (s : CMState) (calls : ℕ),
    s.should_reconnect = true →
    s.reconnect_attempts + k = MAX_RECONNECT_ATTEMPTS →
    ∃ sF : CMState, reconnectLoop (fun _ => false) s calls = (false, sF, calls + k) ∧
      sF.reconnect_attempts = MAX_RECONNECT_ATTEMPTS ∧ sF.should_reconnect = true := by
  intro k
  induction k with
  | zero =>
    intro s calls hsr hatt
    refine ⟨s, ?_, by omega, hsr⟩
    have hnot : ¬(s.reconnect_attempts < MAX_RECONNECT_ATTEMPTS ∧
        s.should_reconnect = true) := by
      rintro ⟨hlt, _⟩; omega
    rw [reconnectLoop, dif_neg hnot]
    simp
  | succ k ih =>
    intro s calls hsr hatt
    have hcond : s.reconnect_attempts < MAX_RECONNECT_ATTEMPTS ∧
        s.should_reconnect = true := ⟨by omega, hsr⟩
    obtain ⟨sF, heq, hattF, hsrF⟩ :=
      ih (backoffAdvance (connectResult false s).2) (calls + 1)
        (by simp [backoffAdvance, connectResult, hsr])
        (by simp [backoffAdvance, connectResult]; omega)
    refine ⟨sF, ?_, hattF, hsrF⟩
    rw [reconnectLoop, dif_pos hcond]
    simp only [Bool.false_eq_true, if_false]
    rw [heq]
    have harith : calls + 1 + k = calls + (k + 1) := by omega
    rw [harith]

/-- C8: from a fresh attempt counter, exactly MAX_RECONNECT_ATTEMPTS = 10
consecutive failed connect calls drive the manager into the terminal Failed
state (attempt counter = 10, reconnect returns False); from that state a
further reconnect call makes zero connect attempts and leaves the state
unchanged, until an explicit successful connect call resets the counter. -/
theorem reconnect_exhaustion_terminal (s : CMState)
    (hatt : s.reconnect_attempts = 0) (hsr : s.should_reconnect = true) :
    MAX_RECONNECT_ATTEMPTS = 10 ∧
    ∃ sF : CMState,
      reconnect (fun _ => false) s = (false, sF, MAX_RECONNECT_ATTEMPTS) ∧
      sF.reconnect_attempts = MAX_RECONNECT_ATTEMPTS ∧
      reconnect (fun _ => false) sF = (false, sF, 0) ∧
      (connectResult true sF).2.reconnect_attempts = 0 := by
  obtain ⟨sF, heq, hattF, hsrF⟩ :=
    reconnectLoop_allFail MAX_RECONNECT_ATTEMPTS s 0 hsr (by omega)
  refine ⟨rfl, sF, ?_, hattF, ?_, by simp [connectResult]⟩
  · simp only [reconnect, hsr]
    simpa using heq
  · simp only [reconnect, hsrF]
    have hnot : ¬(sF.reconnect_attempts < MAX_RECONNECT_ATTEMPTS ∧
        sF.should_reconnect = true) := by
      rintro ⟨hlt, _⟩; omega
    simp only [Bool.true_eq_false, if_false]
    rw [reconnectLoop, dif_neg hnot]

/-- C8 witness: starting from the initial manager state, ten failed connect
attempts reach the terminal state. -/
theorem reconnect_exhaustion_terminal_witness :
    MAX_RECONNECT_ATTEMPTS = 10 ∧
    ∃ sF : CMState,
      reconnect (fun _ => false) initCMState = (false, sF, MAX_RECONNECT_ATTEMPTS) ∧
      sF.reconnect_attempts = MAX_RECONNECT_ATTEMPTS ∧
      reconnect (fun _ => false) sF = (false, sF, 0) ∧
      (connectResult true sF).2.reconnect_attempts = 0 :=
  reconnect_exhaustion_terminal initCMState rfl rfl

/-- Re-encoding the fields a well-formed payload decodes to reproduces the
payload byte for byte. -/
theorem encode_eq_of_wellformed (data : List ℕ) (flags : ℕ) (hb : ByteList data)
    (h0 : data.get? 0 = some flags) (hlen : requiredLen flags ≤ data.length)
    (htrail : if flags &&& 0x10 ≠ 0 then (data.length - requiredLen flags) % 2 = 0
              else data.length = requiredLen flags) :
    encode_hrm flags (hrOf data flags) (energyOf data flags)
      (rawRRs (data.drop (requiredLen flags))) = data := by
  cases data with
  | nil => simp at h0
  | cons f rest =>
    obtain rfl : f = flags := by simpa using h0
    have hmod := Nat.and_one_is_mod f
    by_cases h1 : f &&& 0x01 ≠ 0 <;> by_cases h8 : f &&& 0x08 ≠ 0
    · have h1m : f % 2 = 1 := by omega
      have hreq : requiredLen f = 5 := by simp [requiredLen, h1m, h8]
      rcases rest with _ | ⟨a, _ | ⟨b, _ | ⟨c, _ | ⟨d, tail⟩⟩⟩⟩
      · exfalso; rw [hreq] at hlen; simp only [List.length_cons, List.length_nil] at hlen; omega
      · exfalso; rw [hreq] at hlen; simp only [List.length_cons, List.length_nil] at hlen; omega
      · exfalso; rw [hreq] at hlen; simp only [List.length_cons, List.length_nil] at hlen; omega
      · exfalso; rw [hreq] at hlen; simp only [List.length_cons, List.length_nil] at hlen; omega
      · have ha : a < 256 := hb a (by simp)
        have hbb : b < 256 := hb b (by simp)
        have hc : c < 256 := hb c (by simp)
        have hd : d < 256 := hb d (by simp)
        have hdrop : (f :: a :: b :: c :: d :: tail).drop (requiredLen f) = tail := by
          rw [hreq]; rfl
        have htail : (rawRRs tail).flatMap (fun r => [r % 256, r / 256]) = tail := by
          by_cases h4 : f &&& 0x10 ≠ 0
          · refine rawRRs_flatMap tail (fun x hx => hb x (by simp [hx])) ?_
            rw [if_pos h4, hreq] at htrail
            simp only [List.length_cons, List.length_nil] at htrail
            omega
          · rw [if_neg h4, hreq] at htrail
            have hnil : tail = [] := by
              simp only [List.length_cons, List.length_nil] at htrail
              exact List.length_eq_zero.mp (by omega)
            subst hnil; rfl
        rw [hdrop]
        have hhr : hrOf (f :: a :: b :: c :: d :: tail) f = a ||| (b <<< 8) := by
          simp [hrOf, h1m]
        have hen : energyOf (f :: a :: b :: c :: d :: tail) f = some (c ||| (d <<< 8)) := by
          simp [energyOf, hrWidth, h1m, h8]
        rw [hhr, hen]
        simp [encode_hrm, h1m, lor_shift8_mod a b ha, lor_shift8_div a b ha,
          lor_shift8_mod c d hc, lor_shift8_div c d hc, htail]
    · have h1m : f % 2 = 1 := by omega
      have h8z : f &&& 0x08 = 0 := not_not.mp h8
      have hreq : requiredLen f = 3 := by simp [requiredLen, h1m, h8z]
      rcases rest with _ | ⟨a, _ | ⟨b, tail⟩⟩
      · exfalso; rw [hreq] at hlen; simp only [List.length_cons, List.length_nil] at hlen; omega
      · exfalso; rw [hreq] at hlen; simp only [List.length_cons, List.length_nil] at hlen; omega
      · have ha : a < 256 := hb a (by simp)
        have hbb : b < 256 := hb b (by simp)
        have hdrop : (f :: a :: b :: tail).drop (requiredLen f) = tail := by
          rw [hreq]; rfl
        have htail : (rawRRs tail).flatMap (fun r => [r % 256, r / 256]) = tail := by
          by_cases h4 : f &&& 0x10 ≠ 0
          · refine rawRRs_flatMap tail (fun x hx => hb x (by simp [hx])) ?_
            rw [if_pos h4, hreq] at htrail
            simp only [List.length_cons, List.length_nil] at htrail
            omega
          · rw [if_neg h4, hreq] at htrail
            have hnil : tail = [] := by
              simp only [List.length_cons, List.length_nil] at htrail
              exact List.length_eq_zero.mp (by omega)
            subst hnil; rfl
        rw [hdrop]
        have hhr : hrOf (f :: a :: b :: tail) f = a ||| (b <<< 8) := by
          simp [hrOf, h1m]
        have hen : energyOf (f :: a :: b :: tail) f = none := by
          simp [energyOf, h8z]
        rw [hhr, hen]
        simp [encode_hrm, h1m, lor_shift8_mod a b ha, lor_shift8_div a b ha, htail]
    · have h1m : f % 2 = 0 := by omega
      have hreq : requiredLen f = 4 := by simp [requiredLen, h1m, h8]
      rcases rest with _ | ⟨a, _ | ⟨b, _ | ⟨c, tail⟩⟩⟩
      · exfalso; rw [hreq] at hlen; simp only [List.length_cons, List.length_nil] at hlen; omega
      · exfalso; rw [hreq] at hlen; simp only [List.length_cons, List.length_nil] at hlen; omega
      · exfalso; rw [hreq] at hlen; simp only [List.length_cons, List.length_nil] at hlen; omega
      · have hbb : b < 256 := hb b (by simp)
        have hc : c < 256 := hb c (by simp)
        have hdrop : (f :: a :: b :: c :: tail).drop (requiredLen f) = tail := by
          rw [hreq]; rfl
        have htail : (rawRRs tail).flatMap (fun r => [r % 256, r / 256]) = tail := by
          by_cases h4 : f &&& 0x10 ≠ 0
          · refine rawRRs_flatMap tail (fun x hx => hb x (by simp [hx])) ?_
            rw [if_pos h4, hreq] at htrail
            simp only [List.length_cons, List.length_nil] at htrail
            omega
          · rw [if_neg h4, hreq] at htrail
            have hnil : tail = [] := by
              simp only [List.length_cons, List.length_nil] at htrail
              exact List.length_eq_zero.mp (by omega)
            subst hnil; rfl
        rw [hdrop]
        have hhr : hrOf (f :: a :: b :: c :: tail) f = a := by
          simp [hrOf, h1m]
        have hen : energyOf (f :: a :: b :: c :: tail) f = some (b ||| (c <<< 8)) := by
          simp [energyOf, hrWidth, h1m, h8]
        rw [hhr, hen]
        simp [encode_hrm, h1m, lor_shift8_mod b c hbb, lor_shift8_div b c hbb, htail]
    · have h1m : f % 2 = 0 := by omega
      have h8z : f &&& 0x08 = 0 := not_not.mp h8
      have hreq : requiredLen f = 2 := by simp [requiredLen, h1m, h8z]
      rcases rest with _ | ⟨a, tail⟩
      · exfalso; rw [hreq] at hlen; simp only [List.length_cons, List.length_nil] at hlen; omega
      · have hdrop : (f :: a :: tail).drop (requiredLen f) = tail := by
          rw [hreq]; rfl
        have htail : (rawRRs tail).flatMap (fun r => [r % 256, r / 256]) = tail := by
          by_cases h4 : f &&& 0x10 ≠ 0
          · refine rawRRs_flatMap tail (fun x hx => hb x (by simp [hx])) ?_
            rw [if_pos h4, hreq] at htrail
            simp only [List.length_cons, List.length_nil] at htrail
            omega
          · rw [if_neg h4, hreq] at htrail
            have hnil : tail = [] := by
              simp only [List.length_cons, List.length_nil] at htrail
              exact List.length_eq_zero.mp (by omega)
            subst hnil; rfl
        rw [hdrop]
        have hhr : hrOf (f :: a :: tail) f = a := by
          simp [hrOf, h1m]
        have hen : energyOf (f :: a :: tail) f = none := by
          simp [energyOf, h8z]
        rw [hhr, hen]
        simp [encode_hrm, h1m, htail]

/-- C9: for every payload well-formed for its flags (every declared field
fully present, no dangling trailing byte), the logical fields a successful
decode returns — heart rate, optional energy, and the RR list, whose raw
16-bit units are the values multiplied by 1024 — re-encode under the same
flags to exactly the original payload: the decode loses nothing but the
fixed 1/1024-second RR quantization. -/
theorem decode_encode_roundtrip (data : List ℕ) (flags : ℕ) (hb : ByteList data)
    (h0 : data.get? 0 = some flags)
    (htrail : if flags &&& 0x10 ≠ 0 then (data.length - requiredLen flags) % 2 = 0
              else data.length = requiredLen flags)
    (hr : ℕ) (energy : Option ℕ) (rrs : List ℚ)
    (hp : parse_hrm data = some (hr, energy, rrs)) :
    ∃ rrRaw : List ℕ, rrs = rrRaw.map (fun r => ((r : ℚ) / 1024)) ∧
      encode_hrm flags hr energy rrRaw = data := by
  obtain ⟨flags2, h02, hlen, heq⟩ := parse_hrm_some_inv data _ hp
  obtain rfl : flags = flags2 := Option.some.inj (h0.symm.trans h02)
  obtain ⟨rfl, rfl, rfl⟩ : hr = hrOf data flags ∧ energy = energyOf data flags ∧
      rrs = rrsOf data flags := by
    simpa [Prod.ext_iff] using heq
  refine ⟨rawRRs (data.drop (requiredLen flags)), ?_,
    encode_eq_of_wellformed data flags hb h0 hlen htrail⟩
  by_cases h4 : flags &&& 0x10 ≠ 0
  · simp [rrsOf, h4, parseRRs_eq_rawRRs]
  · rw [if_neg h4] at htrail
    have hdropnil : data.drop (requiredLen flags) = [] :=
      List.drop_eq_nil_of_le (by omega)
    simp [rrsOf, h4, hdropnil, rawRRs]

/-- C9 witness: the well-formed payload `[0x10, 0x4B, 0xE8, 0x03]` decodes
to HR 75, no energy, RR raw unit 1000, and those fields re-encode to the
original bytes. -/
theorem decode_encode_roundtrip_witness :
    ∃ rrRaw : List ℕ, [(1000 : ℚ) / 1024] = rrRaw.map (fun r => ((r : ℚ) / 1024)) ∧
      encode_hrm 0x10 75 none rrRaw = [0x10, 0x4B, 0xE8, 0x03] := by
  have hp : parse_hrm [0x10, 0x4B, 0xE8, 0x03] =
      some (75, none, [(1000 : ℚ) / 1024]) := by
    norm_num [parse_hrm, parseRRs, List.get?,
      show (16 &&& 8 : ℕ) = 0 from rfl, show (16 &&& 16 : ℕ) = 16 from rfl,
      show (232 ||| 3 <<< 8 : ℕ) = 1000 from rfl]
  exact decode_encode_roundtrip [0x10, 0x4B, 0xE8, 0x03] 0x10 (by decide) rfl
    (by decide) 75 none [(1000 : ℚ) / 1024] hp

end Whoop
